import Mathlib

/-!
Shallow embedding of `src/sqlx-core/src/postgres/types/chrono.rs`: the binary
codec between chrono temporal values (`NaiveDate`, `NaiveTime`, `NaiveDateTime`,
`DateTime<Tz>`) and the Postgres binary wire format.

Modelling conventions:
* Bytes are `Nat` values `< 256`; wire buffers are `List Nat` in big-endian
  order, as produced by the `i32`/`i64` integer codec the Rust code delegates
  to (`Encode`/`Decode` for `i32`/`i64`, big-endian two's complement).
* A chrono `NaiveDate` is represented by its proleptic-Gregorian civil day
  number (days since 1970-01-01), the standard bijection between calendar
  dates and integers.  chrono's calendar arithmetic (`signed_duration_since`,
  `Add<Duration>`) is exactly day-number arithmetic under this bijection; the
  civil day number of a year/month/day triple is computed by the standard
  civil-calendar algorithm.  chrono restricts years to
  `-262144 ..= 262143` (its internal packed representation), so
  `NaiveDate + Duration` panics outside that range.
* A chrono `NaiveTime` (without leap seconds, per the module's microsecond
  resolution) is its microseconds-since-midnight count.
* A chrono `NaiveDateTime` is its absolute microsecond count
  (`civil day number * 86_400_000_000 + microseconds of day`), valid exactly
  on the range spanned by chrono's date range.
* A chrono `DateTime<Tz>` is a pair of its `naive_utc` instant (absolute
  microseconds, as for `NaiveDateTime`) and its zone's UTC offset in seconds.
* A Rust `panic!` / `.expect(..)` is modelled by `Option`: `none` is the
  fatal abort; the panic message text itself is outside the model.
-/

namespace SqlxChrono

/-- Serialize `n` as `k` bytes, big-endian (most significant byte first). -/
def natToBeBytes : Nat → Nat → List Nat
  | 0, _ => []
  | k + 1, n => natToBeBytes k (n / 256) ++ [n % 256]

/-- Read a big-endian byte list as an unsigned natural number. -/
def beBytesToNat (bs : List Nat) : Nat :=
  bs.foldl (fun acc b => acc * 256 + b) 0

/-- Two's-complement range of a signed 32-bit integer. -/
def i32Range (n : Int) : Prop := -(2 ^ 31) ≤ n ∧ n < 2 ^ 31

instance (n : Int) : Decidable (i32Range n) := by
  unfold i32Range; infer_instance

/-- Two's-complement range of a signed 64-bit integer. -/
def i64Range (n : Int) : Prop := -(2 ^ 63) ≤ n ∧ n < 2 ^ 63

instance (n : Int) : Decidable (i64Range n) := by
  unfold i64Range; infer_instance

/-- The big-endian two's-complement encoding of an `i32`
(the `Encode<Postgres> for i32` collaborator). -/
def i32ToBeBytes (n : Int) : List Nat :=
  natToBeBytes 4 (n.emod (2 ^ 32)).toNat

/-- The big-endian two's-complement decoding of an `i32`
(the `Decode<Postgres> for i32` collaborator). -/
def beBytesToI32 (bs : List Nat) : Int :=
  let u : Int := beBytesToNat bs
  if u < 2 ^ 31 then u else u - 2 ^ 32

/-- The big-endian two's-complement encoding of an `i64`. -/
def i64ToBeBytes (n : Int) : List Nat :=
  natToBeBytes 8 (n.emod (2 ^ 64)).toNat

/-- The big-endian two's-complement decoding of an `i64`. -/
def beBytesToI64 (bs : List Nat) : Int :=
  let u : Int := beBytesToNat bs
  if u < 2 ^ 63 then u else u - 2 ^ 64

/-- Civil day number (days since 1970-01-01, proleptic Gregorian) of the
calendar date `y-m-d`; the standard civil-calendar conversion, which is the
day-number semantics of chrono's `NaiveDate::from_ymd`. -/
def daysFromCivil (y m d : Int) : Int :=
  let y' := if m ≤ 2 then y - 1 else y
  let era := y' / 400
  let yoe := y' - era * 400
  let doy := (153 * (m + (if 2 < m then -3 else 9)) + 2) / 5 + d - 1
  let doe := yoe * 365 + yoe / 4 - yoe / 100 + doy
  era * 146097 + doe - 719468

/-- Smallest year representable by a chrono `NaiveDate` (`MIN_YEAR`). -/
def chronoMinYear : Int := -262144

/-- Largest year representable by a chrono `NaiveDate` (`MAX_YEAR`). -/
def chronoMaxYear : Int := 262143

/-- Civil day number of chrono's `NaiveDate::MIN` (`-262144-01-01`). -/
def chronoMinDay : Int := daysFromCivil chronoMinYear 1 1

/-- Civil day number of chrono's `NaiveDate::MAX` (`262143-12-31`). -/
def chronoMaxDay : Int := daysFromCivil chronoMaxYear 12 31

/-- A civil day number is representable as a chrono `NaiveDate`. -/
def dateInRange (d : Int) : Prop := chronoMinDay ≤ d ∧ d ≤ chronoMaxDay

instance (d : Int) : Decidable (dateInRange d) := by
  unfold dateInRange; infer_instance

/-- Microseconds in one day. -/
def microsPerDay : Int := 86400000000

/-- Microseconds in one second. -/
def microsPerSec : Int := 1000000

/-- Model of `NaiveDate::from_ymd` for valid concrete dates: the civil day
number of `y-m-d`. -/
def NaiveDate.fromYmd (y m d : Int) : Int := daysFromCivil y m d

/-- Civil day number of `postgres_epoch()`'s date, `2000-01-01`
(`NaiveDate::from_ymd(2000, 1, 1)` in the source). -/
def pgEpochDay : Int := daysFromCivil 2000 1 1

/-- Absolute microsecond count of `postgres_epoch().naive_utc()`,
`2000-01-01T00:00:00`. -/
def pgEpochMicros : Int := pgEpochDay * microsPerDay

/-- Smallest absolute microsecond count representable as a chrono
`NaiveDateTime` (midnight of `NaiveDate::MIN`), at microsecond resolution. -/
def tsMinMicros : Int := chronoMinDay * microsPerDay

/-- Largest absolute microsecond count representable as a chrono
`NaiveDateTime` (last microsecond of `NaiveDate::MAX`). -/
def tsMaxMicros : Int := (chronoMaxDay + 1) * microsPerDay - 1

/-- An absolute microsecond count is representable as a chrono
`NaiveDateTime`. -/
def tsInRange (t : Int) : Prop := tsMinMicros ≤ t ∧ t ≤ tsMaxMicros

instance (t : Int) : Decidable (tsInRange t) := by
  unfold tsInRange; infer_instance

/-- Model of `NaiveDateTime` construction from a civil date and a
wall-clock time, at microsecond resolution. -/
def NaiveDateTime.fromYmdHms (y mo d h mi s : Int) : Int :=
  daysFromCivil y mo d * microsPerDay + ((h * 60 + mi) * 60 + s) * microsPerSec

/-- Embedding of `impl Encode<Postgres> for NaiveTime`: subtract midnight,
take `num_microseconds` (`None`, hence a panic via `.expect`, exactly when the
microsecond count of the duration overflows `i64`), and delegate to the `i64`
encoder.  The input is the time's microseconds-since-midnight. -/
def encodeNaiveTime (t : Int) : Option (List Nat) :=
  if i64Range t then some (i64ToBeBytes t) else none

/-- Embedding of `impl Decode<Postgres> for NaiveTime`: decode an `i64` and
add it to midnight with chrono's `NaiveTime + Duration`, which wraps around
at midnight (Euclidean remainder modulo one day). -/
def decodeNaiveTime (bs : List Nat) : Int :=
  (beBytesToI64 bs).emod microsPerDay

/-- Embedding of `impl Encode<Postgres> for NaiveDate`:
`signed_duration_since(2000-01-01).num_days()` is the day-number difference;
`try_into::<i32>()` fails (and the code panics via `unwrap_or_else`) exactly
when that difference is outside the `i32` range; otherwise the difference is
passed to the `i32` encoder. -/
def encodeNaiveDate (d : Int) : Option (List Nat) :=
  let days := d - pgEpochDay
  if i32Range days then some (i32ToBeBytes days) else none

/-- Embedding of `impl Decode<Postgres> for NaiveDate`: decode an `i32` and
compute `NaiveDate::from_ymd(2000, 1, 1) + Duration::days(days)`.  chrono's
`Add<Duration> for NaiveDate` is `checked_add_signed(..).expect(..)`: it
panics when the resulting date falls outside chrono's representable calendar
range. -/
def decodeNaiveDate (bs : List Nat) : Option Int :=
  let days := beBytesToI32 bs
  let r := pgEpochDay + days
  if dateInRange r then some r else none

/-- Embedding of `impl Encode<Postgres> for NaiveDateTime`:
`signed_duration_since(postgres_epoch().naive_utc()).num_microseconds()` is
`None` (panic via `unwrap_or_else`) exactly when the microsecond difference
overflows `i64`; otherwise it is passed to the `i64` encoder. -/
def encodeNaiveDateTime (t : Int) : Option (List Nat) :=
  let micros := t - pgEpochMicros
  if i64Range micros then some (i64ToBeBytes micros) else none

/-- Embedding of `impl Decode<Postgres> for NaiveDateTime`: decode an `i64`
and compute `postgres_epoch().naive_utc().checked_add_signed(..)`, which is
`None` (panic via `unwrap_or_else`) exactly when the result falls outside
chrono's representable `NaiveDateTime` range. -/
def decodeNaiveDateTime (bs : List Nat) : Option Int :=
  let micros := beBytesToI64 bs
  let r := pgEpochMicros + micros
  if tsInRange r then some r else none

/-- Model of a chrono `DateTime<Tz>` with a fixed zone offset: the stored
`naive_utc` instant (absolute microseconds) together with the zone's UTC
offset in seconds (`0` for `Utc`). -/
structure DateTimeTz where
  naiveUtc : Int
  offsetSec : Int
deriving DecidableEq

/-- Model of `DateTime::naive_utc()`: the stored UTC instant. -/
def DateTimeTz.naive_utc (z : DateTimeTz) : Int := z.naiveUtc

/-- Model of `DateTime::from_utc(t, Utc)`: attach the UTC zone (offset 0). -/
def dateTimeFromUtc (t : Int) : DateTimeTz := ⟨t, 0⟩

/-- Construction of a zoned datetime from a local wall-clock reading under a
fixed offset: the UTC instant is the wall-clock microseconds minus the offset
(chrono invariant `local = utc + offset`). -/
def dateTimeFromLocal (wall offsetSec : Int) : DateTimeTz :=
  ⟨wall - offsetSec * microsPerSec, offsetSec⟩

/-- Embedding of `impl<Tz: TimeZone> Encode<Postgres> for DateTime<Tz>`:
encode `self.naive_utc()` as a `NaiveDateTime`. -/
def encodeDateTimeTz (z : DateTimeTz) : Option (List Nat) :=
  encodeNaiveDateTime z.naive_utc

/-- Embedding of `impl Decode<Postgres> for DateTime<Utc>`: decode a
`NaiveDateTime` and attach the UTC zone via `DateTime::from_utc`. -/
def decodeDateTimeUtc (bs : List Nat) : Option DateTimeTz :=
  (decodeNaiveDateTime bs).map dateTimeFromUtc

/-- Appending a final byte multiplies the accumulated value by 256. -/
theorem beBytesToNat_snoc (xs : List Nat) (b : Nat) :
    beBytesToNat (xs ++ [b]) = beBytesToNat xs * 256 + b := by
  unfold beBytesToNat
  rw [List.foldl_append]
  rfl

/-- Reading back a `k`-byte big-endian serialization recovers the value
modulo `256 ^ k`. -/
theorem beBytesToNat_natToBeBytes (k m : Nat) :
    beBytesToNat (natToBeBytes k m) = m % 256 ^ k := by
  induction k generalizing m with
  | zero => simp [natToBeBytes, beBytesToNat, Nat.mod_one]
  | succ k ih =>
    rw [natToBeBytes, beBytesToNat_snoc, ih]
    have h1 : m % (256 * 256 ^ k) % 256 = m % 256 :=
      Nat.mod_mod_of_dvd m ⟨256 ^ k, rfl⟩
    have h2 : m % (256 * 256 ^ k) / 256 = m / 256 % 256 ^ k :=
      Nat.mod_mul_right_div_self m 256 (256 ^ k)
    have h3 : 256 ^ (k + 1) = 256 * 256 ^ k := by ring
    have h4 := Nat.div_add_mod (m % (256 * 256 ^ k)) 256
    rw [h3]
    omega

/-- Euclidean remainder of a value within one period of the modulus:
either the value itself or the value shifted by one period. -/
theorem emod_eq_or (n M : Int) (h1 : -M ≤ n) (h2 : n < M) :
    n.emod M = n ∨ n.emod M = n + M := by
  rcases le_or_lt 0 n with hn | hn
  · left
    exact Int.emod_eq_of_lt hn h2
  · right
    have hs : (n + M * 1) % M = n % M := Int.add_mul_emod_self_left n M 1
    rw [mul_one] at hs
    have hv : (n + M) % M = n + M := Int.emod_eq_of_lt (by omega) (by omega)
    calc n.emod M = (n + M) % M := hs.symm
    _ = n + M := hv

/-- The `i64` integer codec round-trips on its two's-complement range. -/
theorem beBytesToI64_i64ToBeBytes (n : Int) (h : i64Range n) :
    beBytesToI64 (i64ToBeBytes n) = n := by
  obtain ⟨h1, h2⟩ := h
  have h63 : (2 : Int) ^ 63 = 9223372036854775808 := by norm_num
  have h64 : (2 : Int) ^ 64 = 18446744073709551616 := by norm_num
  rw [h63] at h1 h2
  simp only [beBytesToI64, i64ToBeBytes, beBytesToNat_natToBeBytes, h63, h64]
  have key := emod_eq_or n 18446744073709551616 (by omega) (by omega)
  have he0 : 0 ≤ n.emod 18446744073709551616 := Int.emod_nonneg n (by norm_num)
  have he1 : n.emod 18446744073709551616 < 18446744073709551616 :=
    Int.emod_lt_of_pos n (by norm_num)
  have hlt : (n.emod 18446744073709551616).toNat < 256 ^ 8 := by
    have h256 : (256 : Nat) ^ 8 = 18446744073709551616 := by norm_num
    rw [h256]
    omega
  rw [Nat.mod_eq_of_lt hlt]
  rcases key with hk | hk <;> rw [hk] at he0 he1 ⊢ <;> split <;> omega

/-- The `i32` integer codec round-trips on its two's-complement range. -/
theorem beBytesToI32_i32ToBeBytes (n : Int) (h : i32Range n) :
    beBytesToI32 (i32ToBeBytes n) = n := by
  obtain ⟨h1, h2⟩ := h
  have h31 : (2 : Int) ^ 31 = 2147483648 := by norm_num
  have h32 : (2 : Int) ^ 32 = 4294967296 := by norm_num
  rw [h31] at h1 h2
  simp only [beBytesToI32, i32ToBeBytes, beBytesToNat_natToBeBytes, h31, h32]
  have key := emod_eq_or n 4294967296 (by omega) (by omega)
  have he0 : 0 ≤ n.emod 4294967296 := Int.emod_nonneg n (by norm_num)
  have he1 : n.emod 4294967296 < 4294967296 := Int.emod_lt_of_pos n (by norm_num)
  have hlt : (n.emod 4294967296).toNat < 256 ^ 4 := by
    have h256 : (256 : Nat) ^ 4 = 4294967296 := by norm_num
    rw [h256]
    omega
  rw [Nat.mod_eq_of_lt hlt]
  rcases key with hk | hk <;> rw [hk] at he0 he1 ⊢ <;> split <;> omega

/-- Any chrono-representable date's day-offset from the 2000-01-01 epoch
fits in an `i32`. -/
theorem date_offset_fits_i32 (d : Int) (hd : dateInRange d) :
    i32Range (d - pgEpochDay) := by
  obtain ⟨hlo, hhi⟩ := hd
  have hb : -(2 ^ 31) ≤ chronoMinDay - pgEpochDay ∧ chronoMaxDay - pgEpochDay < 2 ^ 31 := by
    decide
  exact ⟨by omega, by omega⟩

/-- Any chrono-representable timestamp's microsecond offset from the
2000-01-01T00:00:00 epoch fits in an `i64`. -/
theorem ts_offset_fits_i64 (t : Int) (ht : tsInRange t) :
    i64Range (t - pgEpochMicros) := by
  obtain ⟨hlo, hhi⟩ := ht
  have hb : -(2 ^ 63) ≤ tsMinMicros - pgEpochMicros ∧ tsMaxMicros - pgEpochMicros < 2 ^ 63 := by
    decide
  exact ⟨by omega, by omega⟩

/-- A microseconds-since-midnight count within one day fits in an `i64`. -/
theorem time_fits_i64 (t : Int) (h0 : 0 ≤ t) (h1 : t < microsPerDay) :
    i64Range t := by
  have hb : microsPerDay < 2 ^ 63 ∧ (0 : Int) < 2 ^ 63 := by decide
  exact ⟨by omega, by omega⟩

/-- Date encoding succeeds with the offset's `i32` bytes when it fits. -/
theorem encodeNaiveDate_of_fits (d : Int) (hfit : i32Range (d - pgEpochDay)) :
    encodeNaiveDate d = some (i32ToBeBytes (d - pgEpochDay)) := by
  simp only [encodeNaiveDate]
  rw [if_pos hfit]

/-- Date decoding inverts the offset encoding for in-range dates. -/
theorem decodeNaiveDate_inv (d : Int) (hd : dateInRange d) :
    decodeNaiveDate (i32ToBeBytes (d - pgEpochDay)) = some d := by
  have hfit := date_offset_fits_i32 d hd
  simp only [decodeNaiveDate]
  rw [beBytesToI32_i32ToBeBytes _ hfit]
  have he : pgEpochDay + (d - pgEpochDay) = d := by ring
  rw [he, if_pos hd]

/-- Date codec round-trip for chrono-representable dates. -/
theorem encode_decode_naiveDate (d : Int) (hd : dateInRange d) :
    (encodeNaiveDate d).bind decodeNaiveDate = some d := by
  rw [encodeNaiveDate_of_fits d (date_offset_fits_i32 d hd), Option.some_bind']
  exact decodeNaiveDate_inv d hd

/-- Timestamp encoding succeeds with the offset's `i64` bytes when it fits. -/
theorem encodeNaiveDateTime_of_fits (t : Int) (hfit : i64Range (t - pgEpochMicros)) :
    encodeNaiveDateTime t = some (i64ToBeBytes (t - pgEpochMicros)) := by
  simp only [encodeNaiveDateTime]
  rw [if_pos hfit]

/-- Timestamp decoding inverts the offset encoding for in-range timestamps. -/
theorem decodeNaiveDateTime_inv (t : Int) (ht : tsInRange t) :
    decodeNaiveDateTime (i64ToBeBytes (t - pgEpochMicros)) = some t := by
  have hfit := ts_offset_fits_i64 t ht
  simp only [decodeNaiveDateTime]
  rw [beBytesToI64_i64ToBeBytes _ hfit]
  have he : pgEpochMicros + (t - pgEpochMicros) = t := by ring
  rw [he, if_pos ht]

/-- Timestamp codec round-trip for chrono-representable timestamps. -/
theorem encode_decode_naiveDateTime (t : Int) (ht : tsInRange t) :
    (encodeNaiveDateTime t).bind decodeNaiveDateTime = some t := by
  rw [encodeNaiveDateTime_of_fits t (ts_offset_fits_i64 t ht), Option.some_bind']
  exact decodeNaiveDateTime_inv t ht

/-- Time-of-day codec round-trip for times within one day. -/
theorem encode_decode_naiveTime (t : Int) (h0 : 0 ≤ t) (h1 : t < microsPerDay) :
    (encodeNaiveTime t).map decodeNaiveTime = some t := by
  have hfit := time_fits_i64 t h0 h1
  simp only [encodeNaiveTime]
  rw [if_pos hfit, Option.map_some']
  simp only [decodeNaiveTime]
  rw [beBytesToI64_i64ToBeBytes _ hfit]
  exact congrArg some (Int.emod_eq_of_lt h0 h1)

/-- C1: for every in-range value of each of the four temporal kinds
(calendar date, time of day, naive timestamp, UTC zoned timestamp),
decoding the bytes produced by encoding the value yields the value back. -/
theorem decode_encode_roundtrip :
    (∀ d : Int, dateInRange d → (encodeNaiveDate d).bind decodeNaiveDate = some d) ∧
    (∀ t : Int, 0 ≤ t → t < microsPerDay →
      (encodeNaiveTime t).map decodeNaiveTime = some t) ∧
    (∀ ts : Int, tsInRange ts →
      (encodeNaiveDateTime ts).bind decodeNaiveDateTime = some ts) ∧
    (∀ z : DateTimeTz, tsInRange z.naiveUtc → z.offsetSec = 0 →
      (encodeDateTimeTz z).bind decodeDateTimeUtc = some z) := by
  refine ⟨encode_decode_naiveDate, encode_decode_naiveTime, encode_decode_naiveDateTime, ?_⟩
  rintro ⟨n, o⟩ hn ho
  simp only at ho
  subst ho
  show (encodeNaiveDateTime n).bind decodeDateTimeUtc = some ⟨n, 0⟩
  rw [encodeNaiveDateTime_of_fits n (ts_offset_fits_i64 n hn), Option.some_bind']
  simp only [decodeDateTimeUtc]
  rw [decodeNaiveDateTime_inv n hn, Option.map_some']
  rfl

/-- Witness for C1 at concrete in-range values. -/
theorem decode_encode_roundtrip_witness :
    (encodeNaiveDate (NaiveDate.fromYmd 2019 12 11)).bind decodeNaiveDate =
        some (NaiveDate.fromYmd 2019 12 11) ∧
    (encodeNaiveTime 3600000000).map decodeNaiveTime = some 3600000000 ∧
    (encodeNaiveDateTime (NaiveDateTime.fromYmdHms 2019 12 11 11 1 5)).bind
        decodeNaiveDateTime = some (NaiveDateTime.fromYmdHms 2019 12 11 11 1 5) ∧
    (encodeDateTimeTz (dateTimeFromUtc (NaiveDateTime.fromYmdHms 2019 12 11 11 1 5))).bind
        decodeDateTimeUtc =
        some (dateTimeFromUtc (NaiveDateTime.fromYmdHms 2019 12 11 11 1 5)) :=
  ⟨decode_encode_roundtrip.1 _ (by decide),
   decode_encode_roundtrip.2.1 3600000000 (by decide) (by decide),
   decode_encode_roundtrip.2.2.1 _ (by decide),
   decode_encode_roundtrip.2.2.2 _ (by decide) rfl⟩

/-- C2: encoding a zoned timestamp is zone-erasing: for any instant, the
bytes produced when the instant is expressed in a fixed local offset equal
the bytes produced when it is expressed in UTC, namely the bytes of the
UTC-equivalent naive timestamp. -/
theorem zoned_encode_zone_erasing :
    ∀ i o : Int,
      encodeDateTimeTz (dateTimeFromLocal (i + o * microsPerSec) o) =
          encodeDateTimeTz (dateTimeFromUtc i) ∧
      encodeDateTimeTz (dateTimeFromUtc i) = encodeNaiveDateTime i := by
  intro i o
  refine ⟨?_, rfl⟩
  simp only [encodeDateTimeTz, dateTimeFromLocal, dateTimeFromUtc, DateTimeTz.naive_utc]
  congr 1
  ring

/-- C3: date encoding fails fatally exactly when the day-offset from
2000-01-01 does not fit in a signed 32-bit integer; when it fits, encoding
succeeds and the emitted bytes decode back to the exact offset (no wrap or
truncation). -/
theorem date_encode_overflow_guard :
    ∀ d : Int,
      (¬ i32Range (d - pgEpochDay) → encodeNaiveDate d = none) ∧
      (i32Range (d - pgEpochDay) →
        encodeNaiveDate d = some (i32ToBeBytes (d - pgEpochDay)) ∧
        beBytesToI32 (i32ToBeBytes (d - pgEpochDay)) = d - pgEpochDay) := by
  intro d
  constructor
  · intro h
    simp only [encodeNaiveDate]
    rw [if_neg h]
  · intro h
    exact ⟨encodeNaiveDate_of_fits d h, beBytesToI32_i32ToBeBytes _ h⟩

/-- Witness for C3: a day-offset of `2 ^ 31` fails; the in-range date
2019-12-11 (offset 7284) succeeds. -/
theorem date_encode_overflow_guard_witness :
    encodeNaiveDate (pgEpochDay + 2 ^ 31) = none ∧
    encodeNaiveDate (pgEpochDay + 7284) = some (i32ToBeBytes 7284) := by
  constructor
  · exact (date_encode_overflow_guard (pgEpochDay + 2 ^ 31)).1 (by decide)
  · have h := ((date_encode_overflow_guard (pgEpochDay + 7284)).2 (by decide)).1
    have he : pgEpochDay + 7284 - pgEpochDay = (7284 : Int) := by ring
    rw [he] at h
    exact h

/-- C4: naive-timestamp decoding adds the raw microsecond offset to the
2000-01-01T00:00:00 epoch with a checked addition: it returns exactly
`epoch + micros` when that is representable as a chrono `NaiveDateTime`
and fails fatally otherwise. -/
theorem timestamp_decode_checked_add :
    ∀ m : Int, i64Range m →
      (tsInRange (pgEpochMicros + m) →
        decodeNaiveDateTime (i64ToBeBytes m) = some (pgEpochMicros + m)) ∧
      (¬ tsInRange (pgEpochMicros + m) →
        decodeNaiveDateTime (i64ToBeBytes m) = none) := by
  intro m hm
  constructor <;> intro h <;> simp only [decodeNaiveDateTime] <;>
    rw [beBytesToI64_i64ToBeBytes m hm]
  · rw [if_pos h]
  · rw [if_neg h]

/-- Witness for C4: one hour of microseconds decodes to one hour past the
epoch; the maximal raw `i64` offset is out of range and fails. -/
theorem timestamp_decode_checked_add_witness :
    decodeNaiveDateTime (i64ToBeBytes 3600000000) = some (pgEpochMicros + 3600000000) ∧
    decodeNaiveDateTime (i64ToBeBytes (2 ^ 63 - 1)) = none := by
  constructor
  · exact (timestamp_decode_checked_add 3600000000 (by decide)).1 (by decide)
  · exact (timestamp_decode_checked_add (2 ^ 63 - 1) (by decide)).2 (by decide)

/-- Counterexample to C5 as stated: decoding the maximal `i32` day count
panics (chrono's `NaiveDate + Duration` aborts beyond year 262143), so date
decoding is not total on 32-bit inputs. -/
theorem date_decode_never_fails_counterexample :
    decodeNaiveDate (i32ToBeBytes 2147483647) = none := by decide

/-- C5 (amended): for every signed 32-bit `days`, decoding returns the
calendar date `2000-01-01 + days` when that date is within chrono's
representable calendar range, and fails fatally otherwise. -/
theorem date_decode_checked_amended :
    ∀ days : Int, i32Range days →
      (dateInRange (pgEpochDay + days) →
        decodeNaiveDate (i32ToBeBytes days) = some (pgEpochDay + days)) ∧
      (¬ dateInRange (pgEpochDay + days) →
        decodeNaiveDate (i32ToBeBytes days) = none) := by
  intro days hdays
  constructor <;> intro h <;> simp only [decodeNaiveDate] <;>
    rw [beBytesToI32_i32ToBeBytes days hdays]
  · rw [if_pos h]
  · rw [if_neg h]

/-- Witness for C5 (amended): 366 days past the epoch decodes to
2001-01-01; the maximal `i32` day count fails. -/
theorem date_decode_checked_amended_witness :
    decodeNaiveDate (i32ToBeBytes 366) = some (pgEpochDay + 366) ∧
    decodeNaiveDate (i32ToBeBytes 2147483646) = none := by
  constructor
  · exact (date_decode_checked_amended 366 (by decide)).1 (by decide)
  · exact (date_decode_checked_amended 2147483646 (by decide)).2 (by decide)

/-- C6: time-of-day encoding is total under the one-day invariant: the
microsecond count since midnight always fits in an `i64`, the overflow
branch is unreachable, and the output is that count's 8-byte big-endian
representation. -/
theorem time_encode_total :
    ∀ t : Int, 0 ≤ t → t < microsPerDay → encodeNaiveTime t = some (i64ToBeBytes t) := by
  intro t h0 h1
  simp only [encodeNaiveTime]
  rw [if_pos (time_fits_i64 t h0 h1)]

/-- Witness for C6 at one hour past midnight. -/
theorem time_encode_total_witness :
    encodeNaiveTime 3600000000 = some (i64ToBeBytes 3600000000) :=
  time_encode_total 3600000000 (by decide) (by decide)

/-- C7: encoding the epoch date 2000-01-01 yields four zero bytes, and
encoding the epoch timestamp 2000-01-01T00:00:00 yields eight zero bytes. -/
theorem epoch_fixed_point :
    encodeNaiveDate (NaiveDate.fromYmd 2000 1 1) = some [0, 0, 0, 0] ∧
    encodeNaiveDateTime (NaiveDateTime.fromYmdHms 2000 1 1 0 0 0) =
        some [0, 0, 0, 0, 0, 0, 0, 0] := by
  decide

/-- C8: encoding 2001-01-01 yields the big-endian `i32` bytes of 366
(2000 is a leap year), and encoding 2019-12-11 yields those of 7284. -/
theorem known_date_offsets :
    encodeNaiveDate (NaiveDate.fromYmd 2001 1 1) = some (i32ToBeBytes 366) ∧
    encodeNaiveDate (NaiveDate.fromYmd 2019 12 11) = some (i32ToBeBytes 7284) := by
  decide

/-- C9: decoding the big-endian 64-bit value 629377265000000 yields the
naive timestamp 2019-12-11 11:01:05. -/
theorem decode_symmetry_vector :
    decodeNaiveDateTime (i64ToBeBytes 629377265000000) =
        some (NaiveDateTime.fromYmdHms 2019 12 11 11 1 5) := by
  decide

/-- C10: time-of-day decoding is total and wraps modulo one day: every
signed 64-bit micros input decodes to midnight plus that many microseconds
under chrono's wrapping time addition, always landing in `[0, 24h)`. -/
theorem time_decode_wraps :
    ∀ m : Int, i64Range m →
      decodeNaiveTime (i64ToBeBytes m) = m.emod microsPerDay ∧
      0 ≤ decodeNaiveTime (i64ToBeBytes m) ∧
      decodeNaiveTime (i64ToBeBytes m) < microsPerDay := by
  intro m hm
  have h1 : decodeNaiveTime (i64ToBeBytes m) = m.emod microsPerDay := by
    simp only [decodeNaiveTime]
    rw [beBytesToI64_i64ToBeBytes m hm]
  refine ⟨h1, ?_, ?_⟩ <;> rw [h1]
  · exact Int.emod_nonneg m (by decide)
  · exact Int.emod_lt_of_pos m (by decide)

/-- Witness for C10: 25 hours of microseconds wraps to one hour past
midnight. -/
theorem time_decode_wraps_witness :
    decodeNaiveTime (i64ToBeBytes 90000000000) = (90000000000 : Int).emod microsPerDay ∧
    (90000000000 : Int).emod microsPerDay = 3600000000 :=
  ⟨(time_decode_wraps 90000000000 (by decide)).1, by decide⟩

end SqlxChrono
